import Mathlib

/-!
# Verification of the `ironyy` credential subsystem (`src/auth.rs`)

A shallow embedding of the password-lifecycle and second-factor code of
`src/auth.rs`, together with theorems settling the specification claims.

Modelling conventions:
* Rust `u32` / `u128` machine integers become `Nat` with explicit `% 2 ^ 32`
  where overflow matters; `Uuid` (a random 128-bit identifier) becomes a
  `Nat` below `2 ^ 128`, rendered in the canonical hyphenated lowercase-hex
  form that Rust's `Display for Uuid` produces.
* Rust strings become Lean `String`; `str::len` (a UTF-8 *byte* count) is
  embedded as `rustStrLen`, computed from the UTF-8 size of each scalar value.
* Fallible Rust code (`Result`) becomes `Except String`; `&mut self` methods
  become explicit state passing that returns the final account state on every
  path, so that the placement of mutations relative to early returns in the
  source is preserved observably.
* External crates (`argon2`, `easy_totp`, the random source) are not part of
  the repository; they are modelled at their call interface.  Randomly
  generated values (`Uuid::new_v4`, the TOTP secret) become parameters, and
  the Argon2id digest is modelled as an injective function of (salt,
  password) — the standard collision-freedom idealisation of a password hash.
  The repository-side logic (salt derivation, policy checks, state updates,
  comparisons, error routing) is embedded from the source verbatim.
-/

/-! ## Base64 (standard alphabet, no padding)

Models `base64::prelude::BASE64_STANDARD_NO_PAD.encode`, used by
`User::hash` to turn the salt-input bytes into a base64 salt string.
The encoder is split into a pure arithmetic sextet layer and a final
character-mapping layer; a decoder witnesses injectivity. -/

/-- The 64 characters of the standard base64 alphabet, in value order. -/
def b64Alphabet : List Char :=
  ['A', 'B', 'C', 'D', 'E', 'F', 'G', 'H', 'I', 'J', 'K', 'L', 'M',
   'N', 'O', 'P', 'Q', 'R', 'S', 'T', 'U', 'V', 'W', 'X', 'Y', 'Z',
   'a', 'b', 'c', 'd', 'e', 'f', 'g', 'h', 'i', 'j', 'k', 'l', 'm',
   'n', 'o', 'p', 'q', 'r', 's', 't', 'u', 'v', 'w', 'x', 'y', 'z',
   '0', '1', '2', '3', '4', '5', '6', '7', '8', '9', '+', '/']

/-- Character for a sextet value (defaults to 'A' out of range). -/
def b64Char (n : Nat) : Char := b64Alphabet.getD n 'A'

/-- Big-endian split of a byte stream into base64 sextet values:
3 bytes become 4 sextets; a 1- or 2-byte tail becomes 2 or 3 sextets
(no padding). -/
def b64Sextets : List Nat → List Nat
  | [] => []
  | [a] => [a / 4, a % 4 * 16]
  | [a, b] => [a / 4, a % 4 * 16 + b / 16, b % 16 * 4]
  | a :: b :: c :: rest =>
      a / 4 :: (a % 4 * 16 + b / 16) :: (b % 16 * 4 + c / 64) :: c % 64 ::
        b64Sextets rest

/-- Inverse of `b64Sextets` on well-formed output: reassembles bytes from
sextet groups. -/
def b64Unsextets : List Nat → List Nat
  | [] => []
  | [x, y] => [x * 4 + y / 16]
  | [x, y, z] => [x * 4 + y / 16, y % 16 * 16 + z / 4]
  | x :: y :: z :: w :: rest =>
      (x * 4 + y / 16) :: (y % 16 * 16 + z / 4) :: (z % 4 * 64 + w) ::
        b64Unsextets rest
  | _ => []

/-- The base64-no-pad encoding of a byte list, as characters. -/
def b64encode (bytes : List Nat) : List Char :=
  (b64Sextets bytes).map b64Char

theorem b64Unsextets_b64Sextets :
    ∀ l : List Nat, (∀ x ∈ l, x < 256) → b64Unsextets (b64Sextets l) = l
  | [], _ => rfl
  | [a], h => by
    have ha : a < 256 := h a (by simp)
    simp only [b64Sextets, b64Unsextets, List.cons.injEq, and_true]
    omega
  | [a, b], h => by
    have ha : a < 256 := h a (by simp)
    have hb : b < 256 := h b (by simp)
    simp only [b64Sextets, b64Unsextets, List.cons.injEq, and_true]
    exact ⟨by omega, by omega⟩
  | a :: b :: c :: rest, h => by
    have ha : a < 256 := h a (by simp)
    have hb : b < 256 := h b (by simp)
    have hc : c < 256 := h c (by simp)
    have ih := b64Unsextets_b64Sextets rest (fun x hx => h x (by simp [hx]))
    simp only [b64Sextets, b64Unsextets, List.cons.injEq]
    exact ⟨by omega, by omega, by omega, ih⟩

theorem b64Sextets_lt (l : List Nat) (hl : ∀ x ∈ l, x < 256) :
    ∀ s ∈ b64Sextets l, s < 64 := by
  induction l using b64Sextets.induct with
  | case1 => simp [b64Sextets]
  | case2 a =>
    have := hl a (by simp)
    simp only [b64Sextets, List.mem_cons, List.not_mem_nil, or_false]
    rintro s (rfl | rfl) <;> omega
  | case3 a b =>
    have := hl a (by simp)
    have := hl b (by simp)
    simp only [b64Sextets, List.mem_cons, List.not_mem_nil, or_false]
    rintro s (rfl | rfl | rfl) <;> omega
  | case4 a b c rest ih =>
    have := hl a (by simp)
    have := hl b (by simp)
    have := hl c (by simp)
    have ih' := ih (fun x hx => hl x (by simp [hx]))
    simp only [b64Sextets, List.mem_cons]
    rintro s (rfl | rfl | rfl | rfl | hs)
    · omega
    · omega
    · omega
    · omega
    · exact ih' s hs

theorem b64Char_inj (a b : Nat) (ha : a < 64) (hb : b < 64)
    (h : b64Char a = b64Char b) : a = b := by
  have : ∀ x : Fin 64, ∀ y : Fin 64, b64Char x.val = b64Char y.val → x = y := by
    decide
  have := this ⟨a, ha⟩ ⟨b, hb⟩ h
  exact congrArg Fin.val this

theorem map_b64Char_inj :
    ∀ l l' : List Nat, (∀ x ∈ l, x < 64) → (∀ x ∈ l', x < 64) →
      l.map b64Char = l'.map b64Char → l = l'
  | [], [], _, _, _ => rfl
  | [], _ :: _, _, _, h => by simp at h
  | _ :: _, [], _, _, h => by simp at h
  | a :: l, b :: l', hl, hl', h => by
    simp only [List.map_cons, List.cons.injEq] at h
    have hd := b64Char_inj a b (hl a (by simp)) (hl' b (by simp)) h.1
    have tl := map_b64Char_inj l l' (fun x hx => hl x (by simp [hx]))
      (fun x hx => hl' x (by simp [hx])) h.2
    rw [hd, tl]

/-- Injectivity of base64-no-pad encoding on byte lists. -/
theorem b64encode_inj (l l' : List Nat) (hl : ∀ x ∈ l, x < 256)
    (hl' : ∀ x ∈ l', x < 256) (h : b64encode l = b64encode l') : l = l' := by
  have hsex := map_b64Char_inj _ _ (b64Sextets_lt l hl) (b64Sextets_lt l' hl') h
  calc l = b64Unsextets (b64Sextets l) := (b64Unsextets_b64Sextets l hl).symm
    _ = b64Unsextets (b64Sextets l') := by rw [hsex]
    _ = l' := b64Unsextets_b64Sextets l' hl'

theorem b64Sextets_length_upper :
    ∀ l : List Nat, 3 * (b64Sextets l).length ≤ 4 * l.length + 6
  | [] => by simp [b64Sextets]
  | [_] => by simp [b64Sextets]
  | [_, _] => by simp [b64Sextets]
  | _ :: _ :: _ :: rest => by
    have ih := b64Sextets_length_upper rest
    simp only [b64Sextets, List.length_cons]
    omega

theorem b64Sextets_length_lower :
    ∀ l : List Nat, 4 * l.length ≤ 3 * (b64Sextets l).length
  | [] => by simp [b64Sextets]
  | [_] => by simp [b64Sextets]
  | [_, _] => by simp [b64Sextets]
  | _ :: _ :: _ :: rest => by
    have ih := b64Sextets_length_lower rest
    simp only [b64Sextets, List.length_cons]
    omega

/-! ## Rendering of `Uuid` and `u32` as text

`User::hash` builds the salt input as `format!("{uuid}{pass_num}")`.
`Display for Uuid` renders the canonical hyphenated lowercase-hex form
(8-4-4-4-12 hex digits, 36 characters); `Display for u32` renders the usual
decimal digits.  Both are embedded here at the byte (ASCII-code) level,
which is what `.as_bytes()` hands to the base64 encoder. -/

/-- The `k` base-16 digits of `u`, most significant first. -/
def nibblesBE : Nat → Nat → List Nat
  | 0, _ => []
  | k + 1, u => nibblesBE k (u / 16) ++ [u % 16]

/-- ASCII code of the lowercase hex digit for a nibble. -/
def hexCode (n : Nat) : Nat := if n < 10 then 48 + n else 87 + n

/-- Numeric value of a lowercase-hex ASCII code (inverse of `hexCode`). -/
def hexVal (b : Nat) : Nat := if b < 58 then b - 48 else b - 87

/-- Big-endian hex parse of a list of ASCII codes. -/
def parseHexBE (l : List Nat) : Nat := l.foldl (fun acc b => acc * 16 + hexVal b) 0

theorem nibblesBE_length : ∀ k u, (nibblesBE k u).length = k := by
  intro k
  induction k with
  | zero => intro u; rfl
  | succ k ih => intro u; simp [nibblesBE, ih]

theorem nibblesBE_lt : ∀ k u, ∀ d ∈ nibblesBE k u, d < 16 := by
  intro k
  induction k with
  | zero => intro u d hd; simp [nibblesBE] at hd
  | succ k ih =>
    intro u d hd
    simp only [nibblesBE, List.mem_append, List.mem_singleton] at hd
    rcases hd with hd | rfl
    · exact ih (u / 16) d hd
    · omega

theorem hexVal_hexCode (d : Nat) (hd : d < 16) : hexVal (hexCode d) = d := by
  simp only [hexCode, hexVal]
  split <;> split <;> omega

theorem parseHexBE_nibbles :
    ∀ k u, u < 16 ^ k → parseHexBE ((nibblesBE k u).map hexCode) = u := by
  intro k
  induction k with
  | zero => intro u hu; interval_cases u; rfl
  | succ k ih =>
    intro u hu
    have hdiv : u / 16 < 16 ^ k := by
      rw [Nat.div_lt_iff_lt_mul (by norm_num)]
      calc u < 16 ^ (k + 1) := hu
        _ = 16 ^ k * 16 := by ring
    simp only [nibblesBE, List.map_append, List.map_cons, List.map_nil,
      parseHexBE, List.foldl_append, List.foldl_cons, List.foldl_nil]
    have := ih (u / 16) hdiv
    simp only [parseHexBE] at this
    rw [this, hexVal_hexCode (u % 16) (by omega)]
    omega

/-- Fuel-driven big-endian decimal digits; structural in the fuel so that it
reduces definitionally (the fuel is irrelevant as long as it dominates `n`). -/
def decReprAux : Nat → Nat → List Nat
  | 0, n => [48 + n % 10]
  | fuel + 1, n =>
    if n < 10 then [48 + n] else decReprAux fuel (n / 10) ++ [48 + n % 10]

/-- Big-endian decimal digits (ASCII codes) of a natural number, mirroring
`Display for u32`: at least one digit, no leading zeros. -/
def decRepr (n : Nat) : List Nat := decReprAux n n

theorem decReprAux_fuel :
    ∀ f1 f2 n, n ≤ f1 → n ≤ f2 → decReprAux f1 n = decReprAux f2 n := by
  intro f1
  induction f1 with
  | zero =>
    intro f2 n h1 _
    have hn : n = 0 := by omega
    subst hn
    cases f2 with
    | zero => rfl
    | succ f2 => simp [decReprAux]
  | succ f1 ih =>
    intro f2 n h1 h2
    cases f2 with
    | zero =>
      have hn : n = 0 := by omega
      subst hn
      simp [decReprAux]
    | succ f2 =>
      simp only [decReprAux]
      split
      · rfl
      · rename_i h10
        have hd1 : n / 10 ≤ f1 := by omega
        have hd2 : n / 10 ≤ f2 := by omega
        rw [ih f2 (n / 10) hd1 hd2]

/-- The defining recurrence of `decRepr`. -/
theorem decRepr_eq (n : Nat) :
    decRepr n = if n < 10 then [48 + n] else decRepr (n / 10) ++ [48 + n % 10] := by
  unfold decRepr
  cases n with
  | zero => simp [decReprAux]
  | succ m =>
    simp only [decReprAux]
    split
    · rfl
    · rename_i h10
      have : m + 1 ≤ m + 1 := le_refl _
      rw [decReprAux_fuel m ((m + 1) / 10) ((m + 1) / 10) (by omega) (le_refl _)]

/-- Big-endian decimal parse of a list of ASCII codes. -/
def decParseBE (l : List Nat) : Nat := l.foldl (fun acc b => acc * 10 + (b - 48)) 0

theorem decParseBE_decRepr : ∀ n, decParseBE (decRepr n) = n := by
  intro n
  induction n using Nat.strong_induction_on with
  | _ n ih =>
    rw [decRepr_eq]
    split
    · simp only [decParseBE, List.foldl_cons, List.foldl_nil]
      omega
    · rename_i hn
      have ihd := ih (n / 10) (Nat.div_lt_self (by omega) (by omega))
      simp only [decParseBE, List.foldl_append, List.foldl_cons, List.foldl_nil]
      simp only [decParseBE] at ihd
      rw [ihd]
      omega

theorem decRepr_bytes_range : ∀ n, ∀ b ∈ decRepr n, 48 ≤ b ∧ b ≤ 57 := by
  intro n
  induction n using Nat.strong_induction_on with
  | _ n ih =>
    intro b hb
    rw [decRepr_eq] at hb
    split at hb
    · simp only [List.mem_singleton] at hb
      omega
    · rename_i hn
      simp only [List.mem_append, List.mem_singleton] at hb
      rcases hb with hb | rfl
      · exact ih (n / 10) (Nat.div_lt_self (by omega) (by omega)) b hb
      · omega

theorem decRepr_length_le : ∀ k n, 1 ≤ k → n < 10 ^ k → (decRepr n).length ≤ k := by
  intro k
  induction k with
  | zero => omega
  | succ k ih =>
    intro n _ hn
    rw [decRepr_eq]
    split
    · simp
    · rename_i h10
      have hk : 1 ≤ k := by
        by_contra hk0
        have : k = 0 := by omega
        subst this
        simp at hn
        omega
      have hdiv : n / 10 < 10 ^ k := by
        rw [Nat.div_lt_iff_lt_mul (by norm_num)]
        calc n < 10 ^ (k + 1) := hn
          _ = 10 ^ k * 10 := by ring
      have := ih (n / 10) hk hdiv
      simp only [List.length_append, List.length_cons, List.length_nil]
      omega

/-- ASCII code of the hyphen separating uuid segments. -/
def hyphenCode : Nat := 45

/-- The 36 ASCII codes of the canonical hyphenated lowercase-hex rendering
of a 128-bit identifier (`Display for Uuid`): 8-4-4-4-12 hex digits. -/
def uuidStrBytes (u : Nat) : List Nat :=
  let h := (nibblesBE 32 u).map hexCode
  h.take 8 ++ hyphenCode :: ((h.drop 8).take 4 ++ hyphenCode ::
    ((h.drop 12).take 4 ++ hyphenCode :: ((h.drop 16).take 4 ++ hyphenCode ::
      h.drop 20)))

/-- The salt-input byte stream of `User::hash`:
`format!("{uuid}{pass_num}").as_bytes()`. -/
def saltInputBytes (u pass_num : Nat) : List Nat :=
  uuidStrBytes u ++ decRepr pass_num

theorem uuidStrBytes_length (u : Nat) : (uuidStrBytes u).length = 36 := by
  have h32 : ((nibblesBE 32 u).map hexCode).length = 32 := by
    simp [nibblesBE_length]
  simp only [uuidStrBytes, List.length_append, List.length_cons,
    List.length_take, List.length_drop, h32]
  omega

theorem hexCode_range (d : Nat) (hd : d < 16) :
    (48 ≤ hexCode d ∧ hexCode d ≤ 57) ∨ (97 ≤ hexCode d ∧ hexCode d ≤ 102) := by
  simp only [hexCode]
  split <;> omega

theorem uuidStrBytes_range (u : Nat) :
    ∀ b ∈ uuidStrBytes u, b < 128 := by
  intro b hb
  have hmem : ∀ x ∈ (nibblesBE 32 u).map hexCode, x < 128 := by
    intro x hx
    rcases List.mem_map.mp hx with ⟨d, hd, rfl⟩
    rcases hexCode_range d (nibblesBE_lt 32 u d hd) with h | h <;> omega
  simp only [uuidStrBytes, List.mem_append, List.mem_cons] at hb
  rcases hb with h | rfl | h | rfl | h | rfl | h | rfl | h
  · exact hmem b (List.take_subset _ _ h)
  · simp [hyphenCode]
  · exact hmem b (List.drop_subset _ _ (List.take_subset _ _ h))
  · simp [hyphenCode]
  · exact hmem b (List.drop_subset _ _ (List.take_subset _ _ h))
  · simp [hyphenCode]
  · exact hmem b (List.drop_subset _ _ (List.take_subset _ _ h))
  · simp [hyphenCode]
  · exact hmem b (List.drop_subset _ _ h)

theorem saltInputBytes_range (u n : Nat) :
    ∀ b ∈ saltInputBytes u n, b < 256 := by
  intro b hb
  simp only [saltInputBytes, List.mem_append] at hb
  rcases hb with h | h
  · exact Nat.lt_of_lt_of_le (uuidStrBytes_range u b h) (by norm_num)
  · have := decRepr_bytes_range n b h
    omega

theorem saltInputBytes_length (u n : Nat) :
    (saltInputBytes u n).length = 36 + (decRepr n).length := by
  simp [saltInputBytes, uuidStrBytes_length]

/-- Recover the hex-digit codes of the uuid part by dropping the hyphens. -/
theorem uuidStrBytes_filter (u : Nat) :
    (uuidStrBytes u).filter (fun b => b ≠ hyphenCode) = (nibblesBE 32 u).map hexCode := by
  have hmem : ∀ x ∈ (nibblesBE 32 u).map hexCode, (fun b => decide (b ≠ hyphenCode)) x = true := by
    intro x hx
    rcases List.mem_map.mp hx with ⟨d, hd, rfl⟩
    rcases hexCode_range d (nibblesBE_lt 32 u d hd) with h | h <;>
      simp [hyphenCode] <;> omega
  have hpart : ∀ l : List Nat, (∀ x ∈ l, (fun b => decide (b ≠ hyphenCode)) x = true) →
      l.filter (fun b => b ≠ hyphenCode) = l := fun l hl => List.filter_eq_self.mpr hl
  have hsub : ∀ s : List Nat, (∀ x ∈ s, x ∈ (nibblesBE 32 u).map hexCode) →
      s.filter (fun b => b ≠ hyphenCode) = s := by
    intro s hs
    exact hpart s (fun x hx => hmem x (hs x hx))
  set h := (nibblesBE 32 u).map hexCode with hh
  simp only [uuidStrBytes, List.filter_append, List.filter_cons]
  have hhy : (decide (hyphenCode ≠ hyphenCode)) = false := by simp
  simp only [hhy, if_neg, Bool.false_eq_true, not_false_iff]
  rw [hsub (h.take 8) (fun x hx => List.take_subset _ _ hx),
    hsub ((h.drop 8).take 4) (fun x hx => List.drop_subset _ _ (List.take_subset _ _ hx)),
    hsub ((h.drop 12).take 4) (fun x hx => List.drop_subset _ _ (List.take_subset _ _ hx)),
    hsub ((h.drop 16).take 4) (fun x hx => List.drop_subset _ _ (List.take_subset _ _ hx)),
    hsub (h.drop 20) (fun x hx => List.drop_subset _ _ hx)]
  have t8 : h.take 8 ++ ((h.drop 8).take 4 ++ ((h.drop 12).take 4 ++
      ((h.drop 16).take 4 ++ h.drop 20))) = h := by
    have e1 : (h.drop 16).take 4 ++ h.drop 20 = h.drop 16 := by
      have : h.drop 20 = (h.drop 16).drop 4 := by
        rw [List.drop_drop]
      rw [this, List.take_append_drop]
    have e2 : (h.drop 12).take 4 ++ h.drop 16 = h.drop 12 := by
      have : h.drop 16 = (h.drop 12).drop 4 := by
        rw [List.drop_drop]
      rw [this, List.take_append_drop]
    have e3 : (h.drop 8).take 4 ++ h.drop 12 = h.drop 8 := by
      have : h.drop 12 = (h.drop 8).drop 4 := by
        rw [List.drop_drop]
      rw [this, List.take_append_drop]
    rw [e1, e2, e3, List.take_append_drop]
  simpa using t8

/-- Decode a salt-input byte stream back into `(uuid, pass_num)`:
the uuid occupies the first 36 bytes (hex digits filtered from hyphens),
the decimal counter the rest. -/
def decodeSaltInput (l : List Nat) : Nat × Nat :=
  (parseHexBE ((l.take 36).filter (fun b => b ≠ hyphenCode)), decParseBE (l.drop 36))

theorem decodeSaltInput_saltInputBytes (u n : Nat) (hu : u < 2 ^ 128) :
    decodeSaltInput (saltInputBytes u n) = (u, n) := by
  have hlen := uuidStrBytes_length u
  have htake : (saltInputBytes u n).take 36 = uuidStrBytes u := by
    rw [saltInputBytes, ← hlen, List.take_left]
  have hdrop : (saltInputBytes u n).drop 36 = decRepr n := by
    rw [saltInputBytes, ← hlen, List.drop_left]
  have hu16 : u < 16 ^ 32 := by norm_num at hu ⊢; omega
  simp only [decodeSaltInput, htake, hdrop, uuidStrBytes_filter,
    parseHexBE_nibbles 32 u hu16, decParseBE_decRepr]

/-- Injectivity of the salt-input rendering on `(uuid, pass_num)` pairs. -/
theorem saltInputBytes_inj (u u' n n' : Nat) (hu : u < 2 ^ 128) (hu' : u' < 2 ^ 128)
    (h : saltInputBytes u n = saltInputBytes u' n') : u = u' ∧ n = n' := by
  have := congrArg decodeSaltInput h
  rw [decodeSaltInput_saltInputBytes u n hu,
    decodeSaltInput_saltInputBytes u' n' hu'] at this
  exact ⟨congrArg Prod.fst this, congrArg Prod.snd this⟩

/-! ## Password policy (`is_password_compliant`)

Embedded from `src/auth.rs` lines 131-172.  Rust's `password.len()` is the
UTF-8 *byte* length, embedded as `rustStrLen`.  The Unicode character
classes `char::is_uppercase`, `char::is_lowercase`, `char::is_digit(10)`
and `char::is_alphanumeric` are modelled on their ASCII fragments (exact for
`is_digit(10)`, which is ASCII-only in Rust; for the other three the full
Unicode tables are outside the repository and every concrete input used in
this file classifies identically under Rust's tables and this model). -/

/-- Number of bytes in the UTF-8 encoding of one scalar value. -/
def charUtf8Size (c : Char) : Nat :=
  if c.toNat < 128 then 1
  else if c.toNat < 2048 then 2
  else if c.toNat < 65536 then 3
  else 4

/-- Models Rust `str::len`: the length in bytes of the UTF-8 encoding. -/
def rustStrLen (s : String) : Nat := (s.data.map charUtf8Size).sum

/-- Model of Rust `char::is_uppercase` (ASCII fragment of the Unicode class). -/
def rustIsUppercase (c : Char) : Bool := 'A' ≤ c && c ≤ 'Z'

/-- Model of Rust `char::is_lowercase` (ASCII fragment of the Unicode class). -/
def rustIsLowercase (c : Char) : Bool := 'a' ≤ c && c ≤ 'z'

/-- Model of Rust `char::is_digit(10)`, i.e. an ASCII decimal digit. -/
def rustIsDigit10 (c : Char) : Bool := '0' ≤ c && c ≤ '9'

/-- Model of Rust `char::is_alphanumeric` (ASCII fragment). -/
def rustIsAlphanumeric (c : Char) : Bool :=
  rustIsUppercase c || rustIsLowercase c || rustIsDigit10 c

/-- Error message of the length rule. -/
def lenMsg : String := "Password must be between 16 and 128 characters long."

/-- Error message of the uppercase rule. -/
def upperMsg : String := "Password must contain at least one uppercase letter."

/-- Error message of the lowercase rule. -/
def lowerMsg : String := "Password must contain at least one lowercase letter."

/-- Error message of the digit rule. -/
def digitMsg : String := "Password must contain at least one digit."

/-- Error message of the special-character rule. -/
def specialMsg : String := "Password must contain at least one special character."

/-- Embedding of `is_password_compliant` (`src/auth.rs:131`): the five rule
booleans are all computed, then matched as a tuple in source order. -/
def is_password_compliant (password : String) : Except String Unit :=
  let is_acceptable_len : Bool :=
    decide (16 ≤ rustStrLen password) && decide (rustStrLen password ≤ 128)
  let has_uppercase : Bool := password.data.any rustIsUppercase
  let has_lowercase : Bool := password.data.any rustIsLowercase
  let has_digit : Bool := password.data.any rustIsDigit10
  let has_special : Bool := password.data.any (fun c => !rustIsAlphanumeric c)
  match is_acceptable_len, has_uppercase, has_lowercase, has_digit, has_special with
  | true, true, true, true, true => .ok ()
  | false, _, _, _, _ => .error lenMsg
  | _, false, _, _, _ => .error upperMsg
  | _, _, false, _, _ => .error lowerMsg
  | _, _, _, false, _ => .error digitMsg
  | _, _, _, _, false => .error specialMsg

/-- The spec's formulation of the validator (§4.1): check the five rules one
after the other in the fixed priority order and report the first failure.
Stated from the spec's words, to be compared with `is_password_compliant`. -/
def policyFirstFailure (password : String) : Except String Unit :=
  if ¬(16 ≤ rustStrLen password ∧ rustStrLen password ≤ 128) then .error lenMsg
  else if ¬(password.data.any rustIsUppercase) then .error upperMsg
  else if ¬(password.data.any rustIsLowercase) then .error lowerMsg
  else if ¬(password.data.any rustIsDigit10) then .error digitMsg
  else if ¬(password.data.any (fun c => !rustIsAlphanumeric c)) then .error specialMsg
  else .ok ()

/-! ## The Argon2id call interface

`User::hash` feeds the base64 salt string to
`argon2::password_hash::SaltString::from_b64` and then hashes with fixed
parameters (Argon2id, v19, m=19456 KiB, t=8, p=1, 32-byte output — the
production constants of `src/auth.rs:30-33`).  The crate is external to the
repository, so it is modelled at this interface:
* `from_b64` validates the salt string (the crate rejects b64 salt strings
  shorter than 4 or longer than 64 characters; the character-validity check
  always passes here because the input is produced by the base64 encoder);
* the PHC-encoded result embeds algorithm tag, version, parameters and salt,
  with the digest modelled as an injective function of (salt, password) —
  the collision-freedom idealisation of Argon2id; hashing the same inputs
  twice yields the same encoded string because the salt is deterministic. -/

/-- Model of `SaltString::from_b64`: length validation of the b64 salt. -/
def saltFromB64 (s : String) : Except String String :=
  if 4 ≤ s.length ∧ s.length ≤ 64 then .ok s else .error "salt invalid length"

/-- Injective stand-in for the Argon2id digest of `password` under `salt`. -/
def argonDigest (salt password : String) : String := salt ++ ":" ++ password

/-- The PHC-encoded hash string produced by `hash_password(...).to_string()`:
algorithm tag, version, cost parameters, salt and digest. -/
def argon2Encoded (salt password : String) : String :=
  "$argon2id$v=19$m=19456,t=8,p=1$" ++ salt ++ "$" ++ argonDigest salt password

/-! ## The `User` aggregate and its operations (`src/auth.rs:12-129`) -/

/-- Model of the `easy_totp::EasyTotp` capability object stored on the
account: the issuer label, the account name and the random seed it carries.
The crate is external; only its identity as a stored value matters here. -/
structure EasyTotp where
  issuer : Option String
  account_name : String
  seed : String
deriving DecidableEq, Repr

/-- The `User` struct of `src/auth.rs:12-18`.  `uuid` is the 128-bit stable
identifier, `password_number` the `u32` rotation counter. -/
structure User where
  username : String
  uuid : Nat
  password_hash : String
  password_number : Nat
  totp : Option EasyTotp
deriving DecidableEq, Repr

/-- Modelled from the spec: the fixed, process-wide application/issuer label
`APP_NAME` of `src/constants.rs`, a file not present under `src/` (§6: "a
fixed, process-wide application/issuer label used to brand the second-factor
enrollment artifact").  No claim depends on its exact value. -/
def APP_NAME : String := "ironyy"

/-- The base64 salt string derived from `(uuid, pass_num)` in `User::hash`. -/
def saltStr (uuid pass_num : Nat) : String :=
  String.mk (b64encode (saltInputBytes uuid pass_num))

/-- Embedding of `User::hash` (`src/auth.rs:44-64`): derive the deterministic
salt from `(uuid, pass_num)`, validate it, then hash the password under it.
A salt failure is surfaced with the source's error prefix. -/
def User.hash (uuid pass_num : Nat) (password : String) : Except String String :=
  match saltFromB64 (saltStr uuid pass_num) with
  | .error e => .error ("Failed to generate salt for password hashing: " ++ e)
  | .ok salt => .ok (argon2Encoded salt password)

/-- Embedding of `User::new` (`src/auth.rs:66-82`).  `Uuid::new_v4()` draws
from the external random source, so the fresh identifier is a parameter. -/
def User.new (uuid : Nat) (username password : String) : Except String User :=
  match is_password_compliant password with
  | .error e => .error e
  | .ok () =>
    match User.hash uuid 0 password with
    | .error e => .error e
    | .ok h =>
      .ok { username := username, uuid := uuid, password_hash := h,
            password_number := 0, totp := none }

/-- Embedding of `User::verify_password` (`src/auth.rs:99-103`): re-hash the
attempt at the account's current counter and compare encoded strings. -/
def User.verify_password (u : User) (password_attempt : String) : Except String Bool :=
  let reference_hash := u.password_hash
  match User.hash u.uuid u.password_number password_attempt with
  | .error e => .error e
  | .ok attempt_hash => .ok (reference_hash == attempt_hash)

/-- Embedding of `User::change_password` (`src/auth.rs:116-123`), with the
mutation order of the source preserved: the policy check returns early with
the account untouched; then the `u32` counter is incremented (wrapping at
`2 ^ 32` like release-mode Rust); then the hash is recomputed, a failure at
that point leaving the already-incremented counter behind.  The final
account state is returned on every path. -/
def User.change_password (u : User) (new_password : String) :
    Except String Unit × User :=
  match is_password_compliant new_password with
  | .error e => (.error e, u)
  | .ok () =>
    let u1 : User := { u with password_number := (u.password_number + 1) % 2 ^ 32 }
    match User.hash u1.uuid u1.password_number new_password with
    | .error e => (.error e, u1)
    | .ok h => (.ok (), { u1 with password_hash := h })

/-- Embedding of `User::enable_2fa` (`src/auth.rs:84-97`).  `EasyTotp::new`
(random seed generation) and `EasyTotp::create_qr_png` (artifact rendering)
are external fallible calls, passed as parameters so both outcomes are
covered.  The function returns the `Result` value, the text printed to
stdout, and the final account state; the secret is stored only after both
external calls succeed, and the QR artifact is printed, not returned. -/
def User.enable_2fa (newTotp : Option String → String → Except String EasyTotp)
    (create_qr_png : EasyTotp → Except String String) (u : User) :
    Except String Unit × String × User :=
  let issuer := some APP_NAME
  let account_name := u.username
  match newTotp issuer account_name with
  | .error e => (.error e, "", u)
  | .ok et =>
    match create_qr_png et with
    | .error e => (.error e, "", u)
    | .ok my_qr_code =>
      (.ok (), "Scan this QR code with your authenticator app:\n" ++ my_qr_code,
        { u with totp := some et })

/-- Embedding of `User::verify_totp` (`src/auth.rs:105-114`).  The external
`EasyTotp::generate_token` (the code for the current time step) is a
parameter. -/
def User.verify_totp (generate_token : EasyTotp → Except String String)
    (u : User) (code : String) : Except String Bool :=
  match u.totp with
  | some secret =>
    match generate_token secret with
    | .error e => .error e
    | .ok reference_code => .ok (reference_code == code)
  | none => .error "2FA is not enabled for this user."

/-- Embedding of `User::disable_2fa` (`src/auth.rs:125-127`). -/
def User.disable_2fa (u : User) : User := { u with totp := none }

/-! ## Bridging lemmas -/

theorem decRepr_length_pos (n : Nat) : 1 ≤ (decRepr n).length := by
  rw [decRepr_eq]
  split
  · simp
  · simp

/-- For any `u32` counter value the derived base64 salt string is between
4 and 64 characters, so `SaltString::from_b64` accepts it. -/
theorem saltStr_length_ok (u n : Nat) (hn : n < 2 ^ 32) :
    4 ≤ (saltStr u n).length ∧ (saltStr u n).length ≤ 64 := by
  have hlen : (saltInputBytes u n).length = 36 + (decRepr n).length :=
    saltInputBytes_length u n
  have hd1 : 1 ≤ (decRepr n).length := decRepr_length_pos n
  have hd10 : (decRepr n).length ≤ 10 :=
    decRepr_length_le 10 n (by omega) (by norm_num at hn ⊢; omega)
  have hup := b64Sextets_length_upper (saltInputBytes u n)
  have hlo := b64Sextets_length_lower (saltInputBytes u n)
  have hstr : (saltStr u n).length = (b64Sextets (saltInputBytes u n)).length := by
    simp [saltStr, String.length, b64encode]
  omega

/-- `User::hash` always succeeds for a `u32` counter, yielding the encoded
hash under the deterministic salt. -/
theorem hash_ok (u n : Nat) (p : String) (hn : n < 2 ^ 32) :
    User.hash u n p = .ok (argon2Encoded (saltStr u n) p) := by
  have h := saltStr_length_ok u n hn
  unfold User.hash saltFromB64
  rw [if_pos h]

theorem string_append_cancel_left (s p q : String) (h : s ++ p = s ++ q) : p = q := by
  have hd := congrArg String.data h
  simp only [String.data_append] at hd
  have h2 := List.append_cancel_left hd
  cases p; cases q; exact congrArg String.mk h2

/-- For a fixed salt, the encoded hash determines the password: the digest
stand-in is injective in the password. -/
theorem argon2Encoded_password_inj (s p q : String)
    (h : argon2Encoded s p = argon2Encoded s q) : p = q := by
  simp only [argon2Encoded, argonDigest] at h
  have h1 : ("$argon2id$v=19$m=19456,t=8,p=1$" ++ s ++ "$") ++ (s ++ ":" ++ p) =
      ("$argon2id$v=19$m=19456,t=8,p=1$" ++ s ++ "$") ++ (s ++ ":" ++ q) := by
    simpa [String.append_assoc] using h
  have h2 := string_append_cancel_left _ _ _ h1
  have h3 : (s ++ ":") ++ p = (s ++ ":") ++ q := by
    simpa [String.append_assoc] using h2
  exact string_append_cancel_left _ _ _ h3

/-- Injectivity of the derived salt string on `(uuid, counter)` pairs. -/
theorem saltStr_inj (u u' n n' : Nat) (hu : u < 2 ^ 128) (hu' : u' < 2 ^ 128)
    (h : saltStr u n = saltStr u' n') : u = u' ∧ n = n' := by
  have hd := congrArg String.data h
  simp only [saltStr] at hd
  have henc : b64encode (saltInputBytes u n) = b64encode (saltInputBytes u' n') := hd
  have hbytes := b64encode_inj _ _ (saltInputBytes_range u n)
    (saltInputBytes_range u' n') henc
  exact saltInputBytes_inj u u' n n' hu hu' hbytes

/-- On the success path, `change_password` produces exactly the state with
the counter bumped (mod `2 ^ 32`) and the hash recomputed under it. -/
theorem change_password_ok_state (u : User) (p : String) (u2 : User)
    (h : u.change_password p = (.ok (), u2)) :
    u2 = { u with
      password_number := (u.password_number + 1) % 2 ^ 32,
      password_hash :=
        argon2Encoded (saltStr u.uuid ((u.password_number + 1) % 2 ^ 32)) p } := by
  unfold User.change_password at h
  cases hc : is_password_compliant p with
  | error e => rw [hc] at h; exact absurd (congrArg Prod.fst h) (by simp)
  | ok v =>
    cases v
    rw [hc] at h
    dsimp only at h
    rw [hash_ok u.uuid ((u.password_number + 1) % 2 ^ 32) p
      (Nat.mod_lt _ (by norm_num))] at h
    dsimp only at h
    have := congrArg Prod.snd h
    dsimp only at this
    exact this.symm

/-- An account whose stored hash is the encoded hash of `p` under the salt
of its current (in-range) counter verifies `p` and rejects every other
attempt. -/
theorem verify_password_of_hash (u : User) (p : String)
    (hn : u.password_number < 2 ^ 32)
    (hh : u.password_hash = argon2Encoded (saltStr u.uuid u.password_number) p) :
    u.verify_password p = .ok true ∧
    ∀ q, q ≠ p → u.verify_password q = .ok false := by
  constructor
  · unfold User.verify_password
    rw [hash_ok u.uuid u.password_number p hn, hh]
    simp
  · intro q hq
    unfold User.verify_password
    rw [hash_ok u.uuid u.password_number q hn, hh]
    simp only [Except.ok.injEq]
    rw [beq_eq_false_iff_ne]
    intro hcontra
    exact hq (argon2Encoded_password_inj _ _ _ hcontra.symm)

/-- A sample account used to instantiate theorems with hypotheses. -/
def sampleUser : User :=
  { username := "testuser", uuid := 0, password_hash := "", password_number := 0,
    totp := none }

/-- A second sample account. -/
def sampleUser2 : User :=
  { username := "bob", uuid := 1, password_hash := "", password_number := 0,
    totp := none }

/-- A sample successful `EasyTotp::new`: wraps the issuer and account name
around a fixed seed standing for the 32 random bytes. -/
def totpGenOk (issuer : Option String) (account_name : String) :
    Except String EasyTotp :=
  .ok { issuer := issuer, account_name := account_name, seed := "S3ED" }

/-- A sample failing `EasyTotp::new` (random-source failure). -/
def totpGenFail (_issuer : Option String) (_account_name : String) :
    Except String EasyTotp :=
  .error "random source exhausted"

/-- A sample successful `EasyTotp::create_qr_png`. -/
def qrRenderOk (et : EasyTotp) : Except String String := .ok ("QR:" ++ et.seed)

/-- A sample failing `EasyTotp::create_qr_png`. -/
def qrRenderFail (_et : EasyTotp) : Except String String := .error "render failed"

/-- A sample `EasyTotp::generate_token` for the current time step. -/
def totpTokenOk (et : EasyTotp) : Except String String := .ok ("123456" ++ et.seed)

/-! ## Claim theorems -/

/-- **C1, counterexample.**  The claim says the length rule passes iff the
password has between 16 and 128 *characters*, independent of its UTF-8 byte
count.  The source measures `password.len()`, which is bytes: this password
has only 10 characters (4 ASCII plus six 2-byte U+00A1 characters) yet 16
UTF-8 bytes, and the whole compliance check — including the length rule —
accepts it. -/
theorem policy_length_rule_chars_cex :
    is_password_compliant "Aa1!¡¡¡¡¡¡" = .ok () ∧
    ("Aa1!¡¡¡¡¡¡" : String).length = 10 ∧ ¬(16 ≤ ("Aa1!¡¡¡¡¡¡" : String).length) :=
  ⟨rfl, rfl, by decide⟩

/-- **C1, amended.**  The length rule of `is_password_compliant` is measured
in UTF-8 *bytes*, not characters: rule 1 passes — equivalently, the check
does not report the length violation, which has top priority — exactly when
the password's UTF-8 byte length lies in `[16, 128]`. -/
theorem policy_length_rule_bytes (p : String) :
    is_password_compliant p ≠ .error lenMsg ↔
      (16 ≤ rustStrLen p ∧ rustStrLen p ≤ 128) := by
  have d2 : upperMsg ≠ lenMsg := by decide
  have d3 : lowerMsg ≠ lenMsg := by decide
  have d4 : digitMsg ≠ lenMsg := by decide
  have d5 : specialMsg ≠ lenMsg := by decide
  unfold is_password_compliant
  by_cases h1 : 16 ≤ rustStrLen p <;> by_cases h2 : rustStrLen p ≤ 128 <;>
    cases h3 : p.data.any rustIsUppercase <;>
    cases h4 : p.data.any rustIsLowercase <;>
    cases h5 : p.data.any rustIsDigit10 <;>
    cases h6 : p.data.any (fun c => !rustIsAlphanumeric c) <;>
    simp [h1, h2, h3, h4, h5, h6, d2, d3, d4, d5]

/-- **C6.**  `is_password_compliant` returns success exactly when all five
rule predicates hold, and otherwise reports the first failing rule in the
fixed priority order length → uppercase → lowercase → digit → special:
the tuple-match of the source is extensionally equal to the sequential
first-failure formulation `policyFirstFailure` taken from the spec's words. -/
theorem policy_tie_break (p : String) :
    is_password_compliant p = policyFirstFailure p ∧
    (is_password_compliant p = .ok () ↔
      ((16 ≤ rustStrLen p ∧ rustStrLen p ≤ 128) ∧
       p.data.any rustIsUppercase = true ∧
       p.data.any rustIsLowercase = true ∧
       p.data.any rustIsDigit10 = true ∧
       p.data.any (fun c => !rustIsAlphanumeric c) = true)) := by
  unfold is_password_compliant policyFirstFailure
  by_cases h1 : 16 ≤ rustStrLen p <;> by_cases h2 : rustStrLen p ≤ 128 <;>
    cases h3 : p.data.any rustIsUppercase <;>
    cases h4 : p.data.any rustIsLowercase <;>
    cases h5 : p.data.any rustIsDigit10 <;>
    cases h6 : p.data.any (fun c => !rustIsAlphanumeric c) <;>
    simp [h1, h2, h3, h4, h5, h6]

/-- **C2.**  `change_password` is atomic on failure: whenever it returns an
error — a policy violation, or a salt/hashing failure — the returned account
state is exactly the argument state, every field included, so the stored-hash
invariant of the account is preserved.  (On the policy path the source
returns before any mutation; on the hashing path the counter has already
been incremented, but that path is unreachable: for the wrapped `u32`
counter the derived salt is always accepted, so the hash step cannot fail.) -/
theorem change_password_atomic_on_error (u : User) (p e : String)
    (h : (u.change_password p).1 = .error e) :
    (u.change_password p).2 = u := by
  cases hc : is_password_compliant p with
  | error e2 => simp [User.change_password, hc]
  | ok v =>
    cases v
    exfalso
    unfold User.change_password at h
    rw [hc] at h
    dsimp only at h
    rw [hash_ok u.uuid ((u.password_number + 1) % 2 ^ 32) p
      (Nat.mod_lt _ (by norm_num))] at h
    exact absurd h (by simp)

/-- Witness for C2: a policy-failing call (password too short) leaves the
sample account exactly as it was. -/
theorem change_password_atomic_on_error_witness :
    (sampleUser.change_password "short").2 = sampleUser :=
  change_password_atomic_on_error sampleUser "short" lenMsg rfl

/-- **C10.**  Frame property: `change_password`, `enable_2fa` and
`disable_2fa` never modify the username or the stable identifier, on any
path (success or failure); `verify_password` and `verify_totp` take the
account immutably (`&self`) and are embedded as pure readers that return no
account state at all. -/
theorem operations_frame (u : User) (p : String)
    (g : Option String → String → Except String EasyTotp)
    (r : EasyTotp → Except String String) :
    ((u.change_password p).2.username = u.username ∧
     (u.change_password p).2.uuid = u.uuid) ∧
    ((User.enable_2fa g r u).2.2.username = u.username ∧
     (User.enable_2fa g r u).2.2.uuid = u.uuid) ∧
    (u.disable_2fa.username = u.username ∧ u.disable_2fa.uuid = u.uuid) := by
  refine ⟨?_, ?_, by simp [User.disable_2fa]⟩
  · unfold User.change_password
    cases is_password_compliant p with
    | error e => simp
    | ok v =>
      cases v
      dsimp only
      cases User.hash u.uuid ((u.password_number + 1) % 2 ^ 32) p with
      | error e => simp
      | ok h => simp
  · unfold User.enable_2fa
    dsimp only
    cases g (some APP_NAME) u.username with
    | error e => simp
    | ok et =>
      dsimp only
      cases r et with
      | error e => simp
      | ok qr => simp

/-- The account obtained by `User::new` with identifier 0, username "u" and
the spec's baseline compliant password. -/
def sampleNewUser : User :=
  { username := "u", uuid := 0,
    password_hash := argon2Encoded (saltStr 0 0) "ValidPass123!ABCxyz",
    password_number := 0, totp := none }

/-- **C3.**  Verification is correct and deterministic: an account created
by `User::new` with password `p` (or rotated to `p2` by `change_password`)
verifies that password with `Ok(true)` — re-hashing under the deterministic
salt reproduces the stored encoded hash — and returns `Ok(false)` for every
different attempt. -/
theorem verify_password_correct (uid : Nat) (name p q : String) (u : User)
    (hu : User.new uid name p = .ok u) (hq : q ≠ p) :
    (u.verify_password p = .ok true ∧ u.verify_password q = .ok false) ∧
    ∀ (w : User) (p2 q2 : String) (u2 : User),
      w.change_password p2 = (.ok (), u2) → q2 ≠ p2 →
      (u2.verify_password p2 = .ok true ∧ u2.verify_password q2 = .ok false) := by
  have hfields : u =
      { username := name, uuid := uid,
        password_hash := argon2Encoded (saltStr uid 0) p,
        password_number := 0, totp := none } := by
    unfold User.new at hu
    cases hc : is_password_compliant p with
    | error e => rw [hc] at hu; exact absurd hu (by simp)
    | ok v =>
      cases v
      rw [hc] at hu
      dsimp only at hu
      rw [hash_ok uid 0 p (by norm_num)] at hu
      dsimp only at hu
      simp only [Except.ok.injEq] at hu
      exact hu.symm
  constructor
  · subst hfields
    exact ⟨(verify_password_of_hash _ p (by norm_num) rfl).1,
      (verify_password_of_hash _ p (by norm_num) rfl).2 q hq⟩
  · intro w p2 q2 u2 h2 hq2
    have hst := change_password_ok_state w p2 u2 h2
    subst hst
    exact ⟨(verify_password_of_hash _ p2 (Nat.mod_lt _ (by norm_num)) rfl).1,
      (verify_password_of_hash _ p2 (Nat.mod_lt _ (by norm_num)) rfl).2 q2 hq2⟩

/-- Witness for C3: the concretely created account verifies its password and
rejects the empty string. -/
theorem verify_password_correct_witness :
    sampleNewUser.verify_password "ValidPass123!ABCxyz" = .ok true ∧
    sampleNewUser.verify_password "" = .ok false :=
  (verify_password_correct 0 "u" "ValidPass123!ABCxyz" "" sampleNewUser rfl
    (by decide)).1

/-- **C4, counterexample.**  The claim says the pre-rotation password always
fails `verify_password` after a successful rotation.  Rotating to the *same*
password refutes this: the call succeeds (the code never compares old and new
passwords), and afterwards the pre-rotation password still verifies. -/
theorem change_password_same_password_cex :
    (sampleNewUser.change_password "ValidPass123!ABCxyz").1 = .ok () ∧
    (sampleNewUser.change_password "ValidPass123!ABCxyz").2.verify_password
      "ValidPass123!ABCxyz" = .ok true :=
  ⟨rfl, rfl⟩

/-- **C4, amended.**  A successful `change_password` sets the rotation
counter to the old counter plus one reduced modulo `2 ^ 32` (the `u32`
increment of the source: exactly `+1` until the counter wraps at
`u32::MAX`), and afterwards every attempt that differs from the *new*
password — in particular the previous password, whenever it is not equal to
the new one — fails `verify_password`. -/
theorem change_password_rotation (u : User) (p : String) (u2 : User)
    (h : u.change_password p = (.ok (), u2)) :
    u2.password_number = (u.password_number + 1) % 2 ^ 32 ∧
    ∀ old, old ≠ p → u2.verify_password old = .ok false := by
  have hst := change_password_ok_state u p u2 h
  subst hst
  exact ⟨rfl, fun old hold =>
    (verify_password_of_hash _ p (Nat.mod_lt _ (by norm_num)) rfl).2 old hold⟩

/-- Witness for C4 (amended): a concrete rotation bumps the counter from 0
to 1 and the old, different password no longer verifies. -/
theorem change_password_rotation_witness :
    (sampleNewUser.change_password "NewStrongPass!012").2.password_number =
      (sampleNewUser.password_number + 1) % 2 ^ 32 ∧
    (sampleNewUser.change_password "NewStrongPass!012").2.verify_password
      "ValidPass123!ABCxyz" = .ok false :=
  have h := change_password_rotation sampleNewUser "NewStrongPass!012"
    (sampleNewUser.change_password "NewStrongPass!012").2 rfl
  ⟨h.1, h.2 "ValidPass123!ABCxyz" (by decide)⟩

/-- The secret `totpGenOk` yields for the first sample account. -/
def sampleSecretA : EasyTotp :=
  { issuer := some APP_NAME, account_name := "testuser", seed := "S3ED" }

/-- The secret `totpGenOk` yields for the second sample account. -/
def sampleSecretB : EasyTotp :=
  { issuer := some APP_NAME, account_name := "bob", seed := "S3ED" }

/-- **C5, counterexample.**  The claim says the enrollment artifact is
returned to the caller as the `Ok` value of `enable_2fa`.  A concrete
successful run shows the `Ok` value is `()` (the source returns
`Result<(), _>`): the QR artifact appears only in the text printed to
stdout, while what is stored on the account is the secret. -/
theorem enable_2fa_returns_unit_cex :
    User.enable_2fa totpGenOk qrRenderOk sampleUser =
      (.ok (), "Scan this QR code with your authenticator app:\nQR:S3ED",
       { sampleUser with totp := some sampleSecretA }) :=
  rfl

/-- **C5, amended.**  On success `enable_2fa` stores the generated secret on
the account (its second-factor state becomes Enabled) and surfaces the
QR-encodable enrollment artifact by *printing* it; the `Ok` value of its
result is unit, not the artifact. -/
theorem enable_2fa_success (u : User)
    (g : Option String → String → Except String EasyTotp)
    (r : EasyTotp → Except String String) (et : EasyTotp) (qr : String)
    (hg : g (some APP_NAME) u.username = .ok et) (hr : r et = .ok qr) :
    User.enable_2fa g r u =
      (.ok (), "Scan this QR code with your authenticator app:\n" ++ qr,
       { u with totp := some et }) := by
  unfold User.enable_2fa
  dsimp only
  rw [hg]
  dsimp only
  rw [hr]

/-- Witness for C5 (amended): a concrete successful enrollment. -/
theorem enable_2fa_success_witness :
    User.enable_2fa totpGenOk qrRenderOk sampleUser2 =
      (.ok (), "Scan this QR code with your authenticator app:\n" ++ "QR:S3ED",
       { sampleUser2 with totp := some sampleSecretB }) :=
  enable_2fa_success sampleUser2 totpGenOk qrRenderOk sampleSecretB "QR:S3ED"
    rfl rfl

/-- **C7.**  While the second factor is disabled (`totp = none`) — whether
never enrolled or just disabled — `verify_totp` returns the distinct
"2FA is not enabled" error and never `Ok(false)`; a code mismatch instead
yields `Ok(false)`, so the two conditions are never conflated; and
`disable_2fa` is idempotent. -/
theorem verify_totp_not_enabled (g : EasyTotp → Except String String)
    (u : User) (c : String) (h : u.totp = none) :
    u.verify_totp g c = .error "2FA is not enabled for this user." ∧
    (u.disable_2fa).verify_totp g c = .error "2FA is not enabled for this user." ∧
    u.disable_2fa.disable_2fa = u.disable_2fa := by
  refine ⟨?_, rfl, rfl⟩
  unfold User.verify_totp
  rw [h]

/-- Witness for C7: a never-enrolled account signals the not-enabled error. -/
theorem verify_totp_not_enabled_witness :
    sampleUser.verify_totp totpTokenOk "000000" =
      .error "2FA is not enabled for this user." :=
  (verify_totp_not_enabled totpTokenOk sampleUser "000000" rfl).1

/-- **C8.**  The deterministic salt derivation is injective: two pairs
`(stable_id, rotation_counter)` that differ in either component — two
distinct accounts, or one account before and after a rotation — derive
distinct salt strings. -/
theorem salt_derivation_injective (u u' n n' : Nat)
    (hu : u < 2 ^ 128) (hu' : u' < 2 ^ 128) (hne : ¬(u = u' ∧ n = n')) :
    saltStr u n ≠ saltStr u' n' := fun h =>
  hne (saltStr_inj u u' n n' hu hu' h)

/-- Witness for C8: the same account's salts before and after one rotation
differ. -/
theorem salt_derivation_injective_witness : saltStr 0 0 ≠ saltStr 0 1 :=
  salt_derivation_injective 0 0 0 1 (by norm_num) (by norm_num) (by decide)

/-- **C9.**  Second-factor enrollment is atomic: if `enable_2fa` fails —
secret generation failure or artifact rendering failure — the returned
account state is exactly the argument state; in particular the stored
secret is unchanged and no partial enrollment state is retained. -/
theorem enable_2fa_atomic_on_error (u : User)
    (g : Option String → String → Except String EasyTotp)
    (r : EasyTotp → Except String String) (e : String)
    (h : (User.enable_2fa g r u).1 = .error e) :
    (User.enable_2fa g r u).2.2 = u := by
  cases hg : g (some APP_NAME) u.username with
  | error e2 => simp [User.enable_2fa, hg]
  | ok et =>
    cases hr : r et with
    | error e2 => simp [User.enable_2fa, hg, hr]
    | ok qr =>
      exfalso
      unfold User.enable_2fa at h
      dsimp only at h
      rw [hg] at h
      dsimp only at h
      rw [hr] at h
      exact absurd h (by simp)

/-- Witness for C9: a failing secret generation leaves the account as it
was. -/
theorem enable_2fa_atomic_on_error_witness :
    (User.enable_2fa totpGenFail qrRenderOk sampleUser).2.2 = sampleUser :=
  enable_2fa_atomic_on_error sampleUser totpGenFail qrRenderOk
    "random source exhausted" rfl
